import Mathlib

/-!
# Verification of the SaveTheChildren backend RAG subsystem

A shallow embedding, in Lean 4, of the document-ingestion / retrieval
subsystem of the SaveTheChildren backend:

* `app/integrations/document_chunker.py`   (`DocumentChunker`)
* `app/integrations/embedding_service.py`  (`EmbeddingService`)
* `app/integrations/postgres_vector_service.py` (`PostgresVectorService`)
* `app/services/file_service.py`           (`FileService.upload_file`, `_extract_text`)
* `app/services/chatbot_service.py`        (`ChatbotService._gather_context`)

Python strings are modelled as `List Char`, byte strings as `List Nat`,
floating-point vectors as `List ℚ`.  External capabilities (the embedding
model libraries, the PDF/DOCX/JSON libraries, the database's cosine-distance
operator) are passed in as explicit function parameters; everything written
in the repository itself is translated directly.
-/

namespace STC

/-! ## Python string primitives -/

/-- Python's `\s` character class (ASCII range, which is all the inputs we
consider): space, tab, newline, carriage return, vertical tab, form feed. -/
def pyIsSpace (c : Char) : Bool :=
  c = ' ' || c = '\t' || c = '\n' || c = '\r' || c = '\x0b' || c = '\x0c'

/-- The character class `[\x00-\x08\x0b-\x0c\x0e-\x1f\x7f-\x9f]` removed by
`DocumentChunker._clean_text`. -/
def isStrippedCtrl (c : Char) : Bool :=
  (c.toNat ≤ 0x08) || (0x0b ≤ c.toNat && c.toNat ≤ 0x0c) ||
  (0x0e ≤ c.toNat && c.toNat ≤ 0x1f) || (0x7f ≤ c.toNat && c.toNat ≤ 0x9f)

/-- `re.sub(r'\s+', ' ', text)`: every maximal run of whitespace becomes one
space. -/
def collapseWs : List Char → List Char
  | [] => []
  | [c] => if pyIsSpace c then [' '] else [c]
  | a :: b :: rest =>
    if pyIsSpace a then
      if pyIsSpace b then collapseWs (b :: rest)
      else ' ' :: collapseWs (b :: rest)
    else a :: collapseWs (b :: rest)

/-- Python `str.strip()`: drop whitespace from both ends. -/
def pyStrip (l : List Char) : List Char :=
  ((l.dropWhile pyIsSpace).reverse.dropWhile pyIsSpace).reverse

/-- `DocumentChunker._clean_text`: collapse whitespace runs, drop the control
characters, strip. -/
def cleanText (l : List Char) : List Char :=
  pyStrip ((collapseWs l).filter (fun c => ¬ isStrippedCtrl c))

/-- Python `hay.rfind(needle)` for a non-empty needle: the largest index at
which `needle` occurs in `hay`, or `-1` if it does not occur. -/
def pyRfind (hay needle : List Char) : Int :=
  ((List.range (hay.length + 1)).filter
      (fun i => needle.isPrefixOf (hay.drop i))).foldl
    (fun acc i => max acc (i : Int)) (-1)

/-- Python slice index normalisation: a negative index counts from the end,
and out-of-range indices clamp to `[0, len]`. -/
def pySliceIdx (len : Nat) (i : Int) : Nat :=
  if i < 0 then ((len : Int) + i).toNat else min i.toNat len

/-- Python `l[a:b]`. -/
def pySlice (l : List Char) (a b : Int) : List Char :=
  (l.take (pySliceIdx l.length b)).drop (pySliceIdx l.length a)

/-- Python `text.split('\n')`. -/
def splitNl : List Char → List (List Char)
  | [] => [[]]
  | c :: rest =>
    let r := splitNl rest
    if c = '\n' then [] :: r
    else
      match r with
      | [] => [[c]]
      | h :: t => (c :: h) :: t

/-- Python `'\n'.join(lines)`. -/
def joinNl (lines : List (List Char)) : List Char :=
  List.intercalate ['\n'] lines

/-- Python `str.lower()` (ASCII). -/
def pyLower (l : List Char) : List Char := l.map Char.toLower

/-- Python `needle in hay` on strings: substring containment. -/
def pyContains (hay needle : List Char) : Bool :=
  (List.range (hay.length + 1)).any (fun i => needle.isPrefixOf (hay.drop i))

/-- Abbreviation turning a Lean string literal into the `List Char` model. -/
def strL (s : String) : List Char := s.toList

/-! ## `DocumentChunker` (`app/integrations/document_chunker.py`) -/

/-- One chunk: the dictionary `{"text": ..., "chunk_index": ...}`. -/
structure Chunk where
  text : List Char
  chunk_index : Nat
  deriving DecidableEq, Repr

/-- The `while start < len(text)` loop of `DocumentChunker.chunk_text`,
translated step for step.  The Python loop is not structurally terminating,
so the model takes a fuel parameter; `none` means the fuel ran out, i.e. the
loop performed that many iterations without finishing. -/
def chunkLoop (size overlap : Nat) (text : List Char) :
    Nat → Int → Nat → List Chunk → Option (List Chunk)
  | 0, _, _, _ => none
  | fuel + 1, start, idx, acc =>
    if start < (text.length : Int) then
      let end0 : Int := start + (size : Int)
      let end1 : Int :=
        if end0 < (text.length : Int) then
          let window := pySlice text start end0
          let lastPeriod := pyRfind window (strL ". ")
          let lastNewline := pyRfind window (strL "\n")
          let breakPoint := max lastPeriod lastNewline
          if breakPoint > ((size / 2 : Nat) : Int) then start + breakPoint + 1
          else end0
        else end0
      let ct := pyStrip (pySlice text start end1)
      let acc' := if ct ≠ [] then acc ++ [⟨ct, idx⟩] else acc
      let idx' := if ct ≠ [] then idx + 1 else idx
      let start' := end1 - (overlap : Int)
      if start' ≥ (text.length : Int) - (overlap : Int) then some acc'
      else chunkLoop size overlap text fuel start' idx' acc'
    else some acc

/-- `DocumentChunker.chunk_text` (with the constructor parameters
`chunk_size`, `chunk_overlap` explicit).  Returns `none` when the sliding
window loop does not finish within `fuel` iterations. -/
def chunkText (size overlap fuel : Nat) (rawText : List Char) :
    Option (List Chunk) :=
  let text := cleanText rawText
  if text.length ≤ size then some [⟨text, 0⟩]
  else chunkLoop size overlap text fuel 0 0 []

/-- `re.match(r'^#+\s+.+$', line)`: one or more `#`, a whitespace character,
and at least one more character (lines contain no newline). -/
def matchesMdHeader (l : List Char) : Bool :=
  (l.takeWhile (fun c => c = '#')) ≠ [] &&
    (let rest := l.dropWhile (fun c => c = '#')
     (rest.head?.elim false pyIsSpace) && rest.length ≥ 2)

/-- `re.match(r'^\d+\.\s+.+$', line)`: digits, a dot, a whitespace character,
and at least one more character. -/
def matchesNumbered (l : List Char) : Bool :=
  (l.takeWhile Char.isDigit) ≠ [] &&
    (match l.dropWhile Char.isDigit with
     | '.' :: rest => (rest.head?.elim false pyIsSpace) && rest.length ≥ 2
     | _ => false)

/-- `re.match(r'^[A-Z][A-Z\s]+$', line)`: an upper-case letter followed by one
or more upper-case letters or whitespace, consuming the whole line. -/
def matchesAllCaps (l : List Char) : Bool :=
  match l with
  | [] => false
  | c :: rest =>
    ('A' ≤ c && c ≤ 'Z') && rest ≠ [] &&
      rest.all (fun d => ('A' ≤ d && d ≤ 'Z') || pyIsSpace d)

/-- A line matches one of the three default section-header patterns of
`chunk_document_by_sections` (the pattern is applied to `line.strip()`). -/
def isHeaderLine (line : List Char) : Bool :=
  matchesMdHeader (pyStrip line) || matchesNumbered (pyStrip line) ||
    matchesAllCaps (pyStrip line)

/-- The per-line body of `chunk_document_by_sections`: flush the accumulated
block when a header starts and the block is non-empty, then append the line. -/
def sectionStep (st : List Chunk × List (List Char) × Nat) (line : List Char) :
    List Chunk × List (List Char) × Nat :=
  let (chunks, current, idx) := st
  if isHeaderLine line ∧ current ≠ [] then
    let ct := pyStrip (joinNl current)
    if ct ≠ [] then (chunks ++ [⟨ct, idx⟩], [line], idx + 1)
    else (chunks, [line], idx)
  else (chunks, current ++ [line], idx)

/-- `DocumentChunker.chunk_document_by_sections` with the default header
patterns. -/
def chunkDocumentBySections (text : List Char) : List Chunk :=
  let (chunks, current, idx) := (splitNl text).foldl sectionStep ([], [], 0)
  if current ≠ [] then
    let ct := pyStrip (joinNl current)
    if ct ≠ [] then chunks ++ [⟨ct, idx⟩] else chunks
  else chunks

/-! ## `EmbeddingService` (`app/integrations/embedding_service.py`) -/

/-- The three embedding providers. -/
inductive Provider
  | google
  | local
  | huggingface
  deriving DecidableEq, Repr

/-- The provider name string stored in `self.provider`. -/
def Provider.name : Provider → List Char
  | .google => strL "google"
  | .local => strL "local"
  | .huggingface => strL "huggingface"

/-- The environment the service runs in: which providers can be initialised
(library importable and constructor succeeding), whether an embedding call on
a provider currently succeeds, and the (external) numeric output of each
provider's model. -/
structure EmbEnv where
  initOk : Provider → Bool
  callOk : Provider → Bool
  embedFn : Provider → List Char → List ℚ

/-- The mutable fields of `EmbeddingService`: `self.provider`,
`self.model_name`, `self.dimension`. -/
structure EmbState where
  provider : Option Provider
  model_name : Option (List Char)
  dimension : Nat
  deriving DecidableEq, Repr

/-- `EmbeddingService._init_google`: on success set provider/model/dimension
and return `True`; on failure leave the state unchanged and return `False`. -/
def initGoogle (env : EmbEnv) (st : EmbState) : Bool × EmbState :=
  if env.initOk .google then
    (true, ⟨some .google, some (strL "text-embedding-004"), 768⟩)
  else (false, st)

/-- `EmbeddingService._init_local`. -/
def initLocal (env : EmbEnv) (st : EmbState) : Bool × EmbState :=
  if env.initOk .local then
    (true, ⟨some .local, some (strL "all-MiniLM-L6-v2"), 384⟩)
  else (false, st)

/-- `EmbeddingService._init_huggingface`. -/
def initHuggingface (env : EmbEnv) (st : EmbState) : Bool × EmbState :=
  if env.initOk .huggingface then
    (true, ⟨some .huggingface, some (strL "all-MiniLM-L6-v2"), 384⟩)
  else (false, st)

/-- `EmbeddingService._init_auto`: Google, then local, then HuggingFace. -/
def initAuto (env : EmbEnv) (st : EmbState) : EmbState :=
  let (ok, st) := initGoogle env st
  if ok then st else
  let (ok, st) := initLocal env st
  if ok then st else
  (initHuggingface env st).2

/-- `EmbeddingService.__init__`: the state before any `_init_*` succeeds is
`provider=None, model_name=None, dimension=1536`. -/
def embInit (env : EmbEnv) (preferred : List Char) : EmbState :=
  let st : EmbState := ⟨none, none, 1536⟩
  if preferred = strL "auto" then initAuto env st
  else if preferred = strL "google" then (initGoogle env st).2
  else if preferred = strL "local" then (initLocal env st).2
  else if preferred = strL "huggingface" then (initHuggingface env st).2
  else initAuto env st

/-- `EmbeddingService._try_fallback`, returning the provider that became
active (`none` when every fallback initialisation failed, in which case the
state is unchanged). -/
def tryFallback (env : EmbEnv) (st : EmbState) : Option Provider × EmbState :=
  match st.provider with
  | some .google =>
    let (ok, st1) := initLocal env st
    if ok then (some .local, st1) else
    let (ok, st2) := initHuggingface env st1
    if ok then (some .huggingface, st2) else (none, st2)
  | some .local =>
    let (ok, st1) := initHuggingface env st
    if ok then (some .huggingface, st1) else
    let (ok, st2) := initGoogle env st1
    if ok then (some .google, st2) else (none, st2)
  | some .huggingface =>
    let (ok, st1) := initLocal env st
    if ok then (some .local, st1) else
    let (ok, st2) := initGoogle env st1
    if ok then (some .google, st2) else (none, st2)
  | none => (none, st)

/-- The errors an embedding call can surface. -/
inductive EmbErr
  | noProvider
  | providerError (p : Provider)
  | allFailed
  deriving DecidableEq, Repr

/-- `EmbeddingService.embed_texts` (the batch call).  On success the result
records the provider whose single `_embed_with_provider` call produced every
vector of the batch.  `providerError p` models the exception of the retried
provider propagating out of the method; `allFailed` models
`RuntimeError("All embedding providers failed")`. -/
def embedTexts (env : EmbEnv) (st : EmbState) (texts : List (List Char)) :
    EmbState × Except EmbErr (Provider × List (List ℚ)) :=
  match st.provider with
  | none => (st, .error .noProvider)
  | some p =>
    if env.callOk p then (st, .ok (p, texts.map (env.embedFn p)))
    else
      match tryFallback env st with
      | (some p2, st2) =>
        if env.callOk p2 then (st2, .ok (p2, texts.map (env.embedFn p2)))
        else (st2, .error (.providerError p2))
      | (none, st2) => (st2, .error .allFailed)

/-- `EmbeddingService.embed_text` (the single-text call); identical control
flow to `embed_texts`. -/
def embedText (env : EmbEnv) (st : EmbState) (text : List Char) :
    EmbState × Except EmbErr (Provider × List ℚ) :=
  match st.provider with
  | none => (st, .error .noProvider)
  | some p =>
    if env.callOk p then (st, .ok (p, env.embedFn p text))
    else
      match tryFallback env st with
      | (some p2, st2) =>
        if env.callOk p2 then (st2, .ok (p2, env.embedFn p2 text))
        else (st2, .error (.providerError p2))
      | (none, st2) => (st2, .error .allFailed)

/-- The dictionary returned by `EmbeddingService.get_info`. -/
structure EmbInfo where
  provider : Option (List Char)
  model : Option (List Char)
  dimension : Nat
  available : Bool
  deriving DecidableEq, Repr

/-- `EmbeddingService.get_info`. -/
def getInfo (st : EmbState) : EmbInfo :=
  ⟨st.provider.map Provider.name, st.model_name, st.dimension,
   st.provider.isSome⟩

/-! ## `PostgresVectorService` (`app/integrations/postgres_vector_service.py`) -/

/-- A JSON metadata value (the values this code actually stores are strings
and the integer `chunk_index`). -/
inductive MetaVal
  | s (v : List Char)
  | n (v : Nat)
  deriving DecidableEq, Repr

/-- A Python-dict insertion on an association list: replace any existing
binding of the key, the new binding last. -/
def dictInsert (d : List (List Char × MetaVal)) (k : List Char) (v : MetaVal) :
    List (List Char × MetaVal) :=
  d.filter (fun kv => kv.1 ≠ k) ++ [(k, v)]

/-- One row of the `document_chunks` table.  `created_at` (wall-clock time)
is not modelled. -/
structure VRow where
  id : List Char
  file_id : List Char
  chunk_index : Nat
  text : List Char
  chunk_size : Nat
  embedding : List ℚ
  meta : List (List Char × MetaVal)
  deriving DecidableEq, Repr

/-- The service state: the configured dimension (`self.dimension`) and the
table contents, in physical row order. -/
structure VState where
  dimension : Nat
  rows : List VRow
  deriving DecidableEq, Repr

/-- `f"{file_id}_{chunk['chunk_index']}"`. -/
def mkChunkId (fid : List Char) (idx : Nat) : List Char :=
  fid ++ '_' :: strL (Nat.repr idx)

/-- `PostgresVectorService.update_dimension`: logs warnings on mismatch and
adopts the requested dimension unconditionally. -/
def updateDimension (st : VState) (dimension : Nat) : VState :=
  { st with dimension := dimension }

/-- The `DocumentChunk(...)` row built by `upsert_document_chunks` for one
`(chunk, embedding)` pair: text truncated to 10000 characters
(`chunk['text'][:10000]`), `chunk_size` the full original length, metadata =
`{**base_metadata, "file_id": ..., "chunk_index": ...}`. -/
def mkRow (fid : List Char) (base : List (List Char × MetaVal))
    (ce : Chunk × List ℚ) : VRow :=
  { id := mkChunkId fid ce.1.chunk_index
    file_id := fid
    chunk_index := ce.1.chunk_index
    text := ce.1.text.take 10000
    chunk_size := ce.1.text.length
    embedding := ce.2
    meta := dictInsert (dictInsert base (strL "file_id") (.s fid))
      (strL "chunk_index") (.n ce.1.chunk_index) }

/-- The loop body of `upsert_document_chunks` for one `(chunk, embedding)`
pair: delete any row with the same id, then insert the new row. -/
def upsertStep (fid : List Char) (base : List (List Char × MetaVal))
    (rows : List VRow) (ce : Chunk × List ℚ) : List VRow :=
  rows.filter (fun r => r.id ≠ mkChunkId fid ce.1.chunk_index) ++ [mkRow fid base ce]

/-- The dimension declared on the table column:
`embedding = Column(Vector(384))`.  It is fixed in the model class; the
service's mutable `self.dimension` never alters it (`update_dimension` only
warns that the table would have to be dropped and recreated). -/
def columnDimension : Nat := 384

/-- The error the vector store surfaces: pgvector refuses to bind a vector
whose length differs from the column's declared dimension
(`ValueError("expected 384 dimensions, not N")`), re-raised by
`upsert_document_chunks`. -/
inductive StorageErr
  | dimensionMismatch (expected got : Nat)
  deriving DecidableEq, Repr

/-- `PostgresVectorService.upsert_document_chunks`.  `chunks` and
`embeddings` are paired with `zip`; `metadata=None` becomes `{}`.  The
method body performs no dimension check of its own, but the declared column
type `Vector(384)` does: flushing a row whose embedding length differs from
384 raises before the final `commit`, the method's `except` re-raises it,
and the session rolls back, leaving the table unchanged — so the call
either fails with no row stored or applies every delete-then-insert pair.
The store's mutable `self.dimension` plays no part in this check. -/
def upsertDocumentChunks (st : VState) (fid : List Char) (chunks : List Chunk)
    (embeddings : List (List ℚ)) (metadata : Option (List (List Char × MetaVal))) :
    Except StorageErr VState :=
  match (chunks.zip embeddings).find? (fun ce => ce.2.length ≠ columnDimension) with
  | some ce => .error (.dimensionMismatch columnDimension ce.2.length)
  | none =>
    .ok { st with
      rows := (chunks.zip embeddings).foldl (upsertStep fid (metadata.getD [])) st.rows }

/-- One search result dictionary of `search_similar_chunks`. -/
structure SearchHit where
  id : List Char
  score : ℚ
  text : List Char
  file_id : List Char
  chunk_index : Nat
  meta : List (List Char × MetaVal)
  deriving DecidableEq, Repr

/-- The candidate rows of `search_similar_chunks`: the whole table, narrowed
by the `file_id` equality filter when the filter dictionary carries one.
`filterDict` is `None`, or `Some fid` for a filter dictionary containing
`"file_id"` (the only key the code reads). -/
def searchCand (st : VState) (filterDict : Option (List Char)) : List VRow :=
  match filterDict with
  | some fid => st.rows.filter (fun r => r.file_id = fid)
  | none => st.rows

/-- `PostgresVectorService.search_similar_chunks`.  The numeric
`cosine_distance` operator lives in the pgvector extension, outside this
repository, so it is a parameter `dist`; the SQL `ORDER BY
cosine_distance(...) LIMIT top_k` is modelled as a stable ascending sort on
the distance followed by `take`, ties therefore staying in physical row
order (the `ORDER BY` clause names no other column). -/
def searchSimilarChunks (dist : List ℚ → List ℚ → ℚ) (st : VState)
    (queryEmbedding : List ℚ) (topK : Nat) (filterDict : Option (List Char)) :
    List SearchHit :=
  (((searchCand st filterDict).mergeSort (fun (a b : VRow) =>
      dist a.embedding queryEmbedding ≤ dist b.embedding queryEmbedding)).take
    topK).map (fun (r : VRow) =>
    ⟨r.id, 1 - dist r.embedding queryEmbedding, r.text, r.file_id,
     r.chunk_index, r.meta⟩)

/-- `PostgresVectorService.delete_document`. -/
def deleteDocument (st : VState) (fid : List Char) : VState :=
  { st with rows := st.rows.filter (fun r => r.file_id ≠ fid) }

/-- Exact cosine distance `1 - a·b/(‖a‖‖b‖)` specialised to unit-norm
vectors, where it is simply `1 - a·b`; used to instantiate `dist` on
concrete unit vectors. -/
def cosDistUnit (a b : List ℚ) : ℚ :=
  1 - ((a.zip b).map (fun p => p.1 * p.2)).sum

/-- A concrete unit vector of the column's 384 dimensions:
`(1, 0, 0, …, 0)`. -/
def unitVec384 : List ℚ := 1 :: List.replicate 383 0

/-- The table after upserting chunks 0 and 1 of file `f`, both carrying
`unitVec384`: rows in chunk order. -/
def tieState1 : VState :=
  ⟨384, [mkRow (strL "f") [] (⟨strL "A", 0⟩, unitVec384),
         mkRow (strL "f") [] (⟨strL "B", 1⟩, unitVec384)]⟩

/-- The table after additionally re-upserting chunk 0 alone: its
delete-then-insert moved the chunk-0 row behind the chunk-1 row. -/
def tieState2 : VState :=
  ⟨384, [mkRow (strL "f") [] (⟨strL "B", 1⟩, unitVec384),
         mkRow (strL "f") [] (⟨strL "A", 0⟩, unitVec384)]⟩

/-! ## `FileService` (`app/services/file_service.py`) -/

/-- A UTF-8 continuation byte (`0x80-0xBF`). -/
def isCont (b : Nat) : Bool := 0x80 ≤ b && b ≤ 0xBF

/-- Strict UTF-8 decoding (Python `bytes.decode('utf-8')`): rejects
continuation-byte errors, overlong encodings, surrogates and code points
above `0x10FFFF`, exactly as CPython's strict decoder does.  `none` models
`UnicodeDecodeError`. -/
def utf8Decode : List Nat → Option (List Char)
  | [] => some []
  | b :: rest =>
    if b < 0x80 then (utf8Decode rest).map (fun cs => Char.ofNat b :: cs)
    else if b < 0xC2 then none
    else if b < 0xE0 then
      match rest with
      | b1 :: rest1 =>
        if isCont b1 then
          (utf8Decode rest1).map (fun cs =>
            Char.ofNat ((b - 0xC0) * 0x40 + (b1 - 0x80)) :: cs)
        else none
      | [] => none
    else if b < 0xF0 then
      match rest with
      | b1 :: b2 :: rest2 =>
        let lo := if b = 0xE0 then 0xA0 else 0x80
        let hi := if b = 0xED then 0x9F else 0xBF
        if (lo ≤ b1 && b1 ≤ hi) && isCont b2 then
          (utf8Decode rest2).map (fun cs =>
            Char.ofNat ((b - 0xE0) * 0x1000 + (b1 - 0x80) * 0x40 + (b2 - 0x80)) :: cs)
        else none
      | _ => none
    else if b < 0xF5 then
      match rest with
      | b1 :: b2 :: b3 :: rest3 =>
        let lo := if b = 0xF0 then 0x90 else 0x80
        let hi := if b = 0xF4 then 0x8F else 0xBF
        if (lo ≤ b1 && b1 ≤ hi) && isCont b2 && isCont b3 then
          (utf8Decode rest3).map (fun cs =>
            Char.ofNat ((b - 0xF0) * 0x40000 + (b1 - 0x80) * 0x1000 +
              (b2 - 0x80) * 0x40 + (b3 - 0x80)) :: cs)
        else none
      | _ => none
    else none

/-- The external extraction capabilities `_extract_text` may call: the JSON
library round-trip `json.dumps(json.loads(s), indent=2)` and the PyPDF2 /
python-docx extractors (`none` models the library raising). -/
structure ExtEnv where
  jsonFmt : List Char → Option (List Char)
  pdfInstalled : Bool
  pdfText : List Nat → Option (List Char)
  docxInstalled : Bool
  docxText : List Nat → Option (List Char)

/-- The body of the outer `try` of `FileService._extract_text`; `none` means
an exception escapes to the outer handler. -/
def extractTextCore (env : ExtEnv) (content : List Nat) (fileType : List Char) :
    Option (List Char) :=
  if fileType = strL "txt" ∨ fileType = strL "text" then utf8Decode content
  else if fileType = strL "json" then (utf8Decode content).bind env.jsonFmt
  else if fileType = strL "csv" then utf8Decode content
  else if fileType = strL "pdf" then
    if env.pdfInstalled then env.pdfText content
    else some (strL "[PDF Document: " ++ strL (Nat.repr content.length) ++ strL " bytes]")
  else if fileType = strL "doc" ∨ fileType = strL "docx" then
    if env.docxInstalled then env.docxText content
    else some (strL "[DOCX Document: " ++ strL (Nat.repr content.length) ++ strL " bytes]")
  else
    some ((utf8Decode content).getD
      (strL "[Binary file: " ++ strL (Nat.repr content.length) ++ strL " bytes]"))

/-- `FileService._extract_text`: any exception is caught and turned into the
placeholder string `"[Could not extract text from {file_type} file]"` — the
method never raises and never returns `None`. -/
def extractText (env : ExtEnv) (content : List Nat) (fileType : List Char) :
    List Char :=
  (extractTextCore env content fileType).getD
    (strL "[Could not extract text from " ++ fileType ++ strL " file]")

/-- The MongoDB `files` document written by `upload_file` (`upload_date` and
the base64 copy of the raw bytes are wall-clock / encoding externals and the
raw bytes are kept as given). -/
structure FileDoc where
  file_id : List Char
  file_name : List Char
  file_type : List Char
  size_bytes : Nat
  chunk_count : Nat
  uploaded_by : List Char
  description : List Char
  file_content : List Nat
  indexed_in_vector_db : Bool
  deriving DecidableEq, Repr

/-- The whole mutable state `upload_file` touches: the embedding-service
singleton, the vector table, and the MongoDB `files` collection. -/
structure AppState where
  emb : EmbState
  vec : VState
  files : List FileDoc
  deriving DecidableEq, Repr

/-- The errors `upload_file` can surface. -/
inductive UploadErr
  | httpBadRequest
  | embedding (e : EmbErr)
  | storage (e : StorageErr)
  deriving DecidableEq, Repr

/-- The return dictionary of a successful `upload_file`. -/
structure UploadResult where
  file_id : List Char
  chunk_count : Nat
  indexed_in_vector_db : Bool
  deriving DecidableEq, Repr

/-- `FileService.upload_file`.  `fileId` stands for the externally drawn
`uuid.uuid4()`; the chunker is the service's `DocumentChunker(chunk_size=1000,
chunk_overlap=200)` run with `fuel` window iterations (`none` = the loop did
not finish).  On `HTTPException`/embedding/storage failure the function
aborts with the state reached so far — in particular no vector row is
written and no `files` document is inserted on the error paths. -/
def uploadFile (ext : ExtEnv) (env : EmbEnv) (st : AppState)
    (content : List Nat) (fileName fileType userId description fileId : List Char)
    (fuel : Nat) : Option (AppState × Except UploadErr UploadResult) :=
  let text := extractText ext content fileType
  if text = [] then some (st, .error .httpBadRequest)
  else
    match chunkText 1000 200 fuel text with
    | none => none
    | some chunks =>
      let (emb1, res) := embedTexts env st.emb (chunks.map Chunk.text)
      match res with
      | .error e => some ({ st with emb := emb1 }, .error (.embedding e))
      | .ok (_, embeddings) =>
        let meta : List (List Char × MetaVal) :=
          [(strL "file_name", .s fileName), (strL "file_type", .s fileType),
           (strL "uploaded_by", .s userId), (strL "description", .s description)]
        match upsertDocumentChunks st.vec fileId chunks embeddings (some meta) with
        | .error e => some ({ st with emb := emb1 }, .error (.storage e))
        | .ok vec1 =>
          let doc : FileDoc :=
            { file_id := fileId, file_name := fileName, file_type := fileType,
              size_bytes := content.length, chunk_count := chunks.length,
              uploaded_by := userId, description := description,
              file_content := content, indexed_in_vector_db := true }
          some (⟨emb1, vec1, st.files ++ [doc]⟩,
            .ok ⟨fileId, chunks.length, true⟩)

/-! ## `ChatbotService._gather_context` (`app/services/chatbot_service.py`) -/

/-- Render a score the way `f"{score:.2f}"` does, up to the exact rounding
mode (round-half-away here); the claims below never depend on the digits. -/
def fmtScore (q : ℚ) : List Char :=
  let cents : Int := ⌊q * 100 + 1 / 2⌋
  strL (Int.repr (cents / 100)) ++ '.' :: strL (Nat.repr ((cents % 100).toNat))

/-- The context block appended for one document hit:
`f"\n[Source {i} - {file_name} (Score: {score:.2f})]:\n{text}\n"` where the
file name defaults to `'Unknown'`. -/
def docHitLine (i : Nat) (hit : SearchHit) : List Char :=
  strL "\n[Source " ++ strL (Nat.repr i) ++ strL " - " ++
    (match hit.meta.lookup (strL "file_name") with
     | some (.s v) => v
     | _ => strL "Unknown") ++
    strL " (Score: " ++ fmtScore hit.score ++ strL ")]:\n" ++ hit.text ++ strL "\n"

/-- Concatenate the rendered hit blocks (the `+=` loop). -/
def joinAll (ls : List (List Char)) : List Char := ls.foldl (· ++ ·) []

/-- The external data the non-RAG branches of `_gather_context` read: the
rendered summaries of the Mongo `cases` / Kenya-API / scraping collections
(empty string = the helper returned nothing). -/
structure CtxEnv where
  caseStats : List Char
  kenyaStats : List Char
  scraped : List Char

/-- The `{"data": ..., "sources": [...]}` dictionary `_gather_context`
returns. -/
structure GatherResult where
  data : List Char
  sources : List (List Char)
  deriving DecidableEq, Repr

/-- `ChatbotService._gather_context`.  The method starts from an empty
context, runs the RAG branch when `rag_available` (embedding errors are
caught and leave the context untouched), then the keyword-triggered
statistics and news branches; it catches every exception, so it always
returns a context dictionary — never an error. -/
def gatherContext (cenv : CtxEnv) (dist : List ℚ → List ℚ → ℚ)
    (ragAvailable : Bool) (env : EmbEnv) (embSt : EmbState) (vst : VState)
    (message : List Char) : GatherResult × EmbState :=
  let lower := pyLower message
  let (data0, sources0, emb1) :=
    if ragAvailable then
      match embedText env embSt message with
      | (emb1, .ok (_, q)) =>
        let docResults := searchSimilarChunks dist vst q 3 none
        if docResults ≠ [] then
          (strL "\n\nRelevant Document Content:\n" ++
             joinAll (docResults.enum.map (fun p => docHitLine (p.1 + 1) p.2)),
           [strL "uploaded_documents"], emb1)
        else ([], [], emb1)
      | (emb1, .error _) => ([], [], emb1)
    else ([], [], embSt)
  let statsWords := [strL "how many", strL "statistics", strL "data",
    strL "cases", strL "reports", strL "county"]
  let (data1, sources1) :=
    if statsWords.any (fun w => pyContains lower w) then
      let (d, s) :=
        if cenv.caseStats ≠ [] then
          (data0 ++ strL "\n\nCase Statistics:\n" ++ cenv.caseStats,
           sources0 ++ [strL "cases"])
        else (data0, sources0)
      if cenv.kenyaStats ≠ [] then
        (d ++ strL "\n\nKenya API Data:\n" ++ cenv.kenyaStats, s ++ [strL "kenya_api"])
      else (d, s)
    else (data0, sources0)
  let newsWords := [strL "recent", strL "news", strL "latest", strL "incident"]
  let (data2, sources2) :=
    if newsWords.any (fun w => pyContains lower w) then
      if cenv.scraped ≠ [] then
        (data1 ++ strL "\n\nRecent Information:\n" ++ cenv.scraped,
         sources1 ++ [strL "web_scraping"])
      else (data1, sources1)
    else (data1, sources1)
  (⟨data2, sources2⟩, emb1)

/-! ## Characterisation of the upsert fold -/

/-- The chunk ids carried by a list of `(chunk, embedding)` pairs. -/
def idsOf (fid : List Char) (l : List (Chunk × List ℚ)) : List (List Char) :=
  l.map (fun ce => mkChunkId fid ce.1.chunk_index)

/-- The upsert fold splits into the surviving pre-existing rows (those whose
id is not overwritten) followed by the rows it emits itself, which do not
depend on the initial table. -/
theorem foldl_upsertStep_eq {fid : List Char} {base : List (List Char × MetaVal)} :
    ∀ (l : List (Chunk × List ℚ)) (rows : List VRow),
      l.foldl (upsertStep fid base) rows =
        rows.filter (fun r => !decide (r.id ∈ idsOf fid l)) ++
          l.foldl (upsertStep fid base) [] := by
  intro l
  induction l with
  | nil => intro rows; simp [idsOf]
  | cons x l ih =>
    intro rows
    have hstep : ∀ rs : List VRow, (x :: l).foldl (upsertStep fid base) rs =
        l.foldl (upsertStep fid base) (upsertStep fid base rs x) := by
      intro rs; rfl
    rw [hstep rows, hstep [], ih (upsertStep fid base rows x),
      ih (upsertStep fid base [] x)]
    have hnil : upsertStep fid base [] x = [mkRow fid base x] := by
      simp [upsertStep]
    rw [hnil]
    unfold upsertStep
    rw [List.filter_append, List.append_assoc]
    congr 1
    rw [List.filter_filter]
    apply List.filter_congr
    intro r _
    by_cases h1 : r.id = mkChunkId fid x.1.chunk_index <;>
      by_cases h2 : r.id ∈ idsOf fid l <;>
      simp [idsOf, h1, h2]

/-- Whatever rows the upsert loop emits, every one of them is the row built
from one of the incoming pairs. -/
theorem mem_foldl_upsertStep_nil {fid : List Char}
    {base : List (List Char × MetaVal)} :
    ∀ (l : List (Chunk × List ℚ)) (r : VRow),
      r ∈ l.foldl (upsertStep fid base) [] → ∃ ce ∈ l, r = mkRow fid base ce := by
  intro l
  induction l with
  | nil => intro r hr; simp at hr
  | cons x l ih =>
    intro r hr
    have hstep : (x :: l).foldl (upsertStep fid base) [] =
        l.foldl (upsertStep fid base) (upsertStep fid base [] x) := rfl
    rw [hstep, foldl_upsertStep_eq] at hr
    rcases List.mem_append.1 hr with h | h
    · have := List.mem_filter.1 h
      have hx : r ∈ upsertStep fid base [] x := this.1
      simp [upsertStep] at hx
      exact ⟨x, List.mem_cons_self x l, hx⟩
    · obtain ⟨ce, hce, hr⟩ := ih r h
      exact ⟨ce, List.mem_cons_of_mem x hce, hr⟩

/-- Every row the upsert loop emits carries one of the incoming chunk ids. -/
theorem id_mem_of_mem_foldl {fid : List Char} {base : List (List Char × MetaVal)}
    {l : List (Chunk × List ℚ)} {r : VRow}
    (h : r ∈ l.foldl (upsertStep fid base) []) : r.id ∈ idsOf fid l := by
  obtain ⟨ce, hce, rfl⟩ := mem_foldl_upsertStep_nil l r h
  exact List.mem_map.2 ⟨ce, hce, rfl⟩

/-- The upsert loop emits exactly one row per incoming chunk id. -/
theorem countP_foldl_upsertStep {fid : List Char} {base : List (List Char × MetaVal)} :
    ∀ (l : List (Chunk × List ℚ)) (cid : List Char), cid ∈ idsOf fid l →
      (l.foldl (upsertStep fid base) []).countP (fun r => decide (r.id = cid)) = 1 := by
  intro l
  induction l with
  | nil => intro cid h; simp [idsOf] at h
  | cons x l ih =>
    intro cid hcid
    have hstep : (x :: l).foldl (upsertStep fid base) [] =
        l.foldl (upsertStep fid base) (upsertStep fid base [] x) := rfl
    have hnil : upsertStep fid base [] x = [mkRow fid base x] := by
      simp [upsertStep]
    rw [hstep, foldl_upsertStep_eq, hnil, List.countP_append]
    by_cases hmem : cid ∈ idsOf fid l
    · rw [ih cid hmem]
      have hz : ([mkRow fid base x].filter
          (fun r => !decide (r.id ∈ idsOf fid l))).countP
            (fun r => decide (r.id = cid)) = 0 := by
        rw [List.countP_eq_zero]
        intro r hr
        have h1 := List.mem_filter.1 hr
        have h2 : r = mkRow fid base x := by simpa using h1.1
        have h3 : ¬ r.id ∈ idsOf fid l := by simpa using h1.2
        simp only [decide_eq_true_eq]
        intro heq
        exact h3 (heq ▸ hmem)
      omega
    · have hx : cid = mkChunkId fid x.1.chunk_index := by
        rcases (by simpa [idsOf] using hcid :
          cid = mkChunkId fid x.1.chunk_index ∨ cid ∈ idsOf fid l) with h | h
        · exact h
        · exact absurd h hmem
      have hfilter : [mkRow fid base x].filter
          (fun r => !decide (r.id ∈ idsOf fid l)) = [mkRow fid base x] := by
        have hnotin : (mkRow fid base x).id ∉ idsOf fid l := by
          show mkChunkId fid x.1.chunk_index ∉ idsOf fid l
          exact hx ▸ hmem
        simp [List.filter_cons, hnotin]
      have h1 : ([mkRow fid base x].filter
          (fun r => !decide (r.id ∈ idsOf fid l))).countP
            (fun r => decide (r.id = cid)) = 1 := by
        rw [hfilter]
        have : (mkRow fid base x).id = cid := hx.symm
        simp [List.countP_cons, this]
      have h2 : (l.foldl (upsertStep fid base) []).countP
          (fun r => decide (r.id = cid)) = 0 := by
        rw [List.countP_eq_zero]
        intro r hr
        have := id_mem_of_mem_foldl hr
        simp only [decide_eq_true_eq]
        intro heq
        exact hmem (heq ▸ this)
      omega

/-- When the incoming chunk ids are distinct, the row built for each incoming
pair is present verbatim in the final table. -/
theorem mkRow_mem_foldl {fid : List Char} {base : List (List Char × MetaVal)} :
    ∀ (l : List (Chunk × List ℚ)) (rows : List VRow),
      (idsOf fid l).Nodup → ∀ ce ∈ l,
        mkRow fid base ce ∈ l.foldl (upsertStep fid base) rows := by
  intro l
  induction l with
  | nil => intro rows _ ce h; simp at h
  | cons x l ih =>
    intro rows hnodup ce hce
    have hstep : (x :: l).foldl (upsertStep fid base) rows =
        l.foldl (upsertStep fid base) (upsertStep fid base rows x) := rfl
    rcases List.mem_cons.1 hce with rfl | hmem
    · rw [hstep, foldl_upsertStep_eq]
      apply List.mem_append.2
      left
      apply List.mem_filter.2
      constructor
      · simp [upsertStep]
      · have : ¬ mkChunkId fid ce.1.chunk_index ∈ idsOf fid l := by
          have h := hnodup
          rw [idsOf, List.map_cons] at h
          exact (List.nodup_cons.1 h).1
        simpa [mkRow] using this
    · rw [hstep]
      have hnd : (idsOf fid l).Nodup := by
        rw [idsOf, List.map_cons] at hnodup
        exact (List.nodup_cons.1 hnodup).2
      exact ih (upsertStep fid base rows x) hnd ce hmem

/-- When every zipped embedding carries the column's 384 dimensions, the
upsert call succeeds and its result is the delete-then-insert fold. -/
theorem upsert_ok_of_valid {st : VState} {fid : List Char} {chunks : List Chunk}
    {embs : List (List ℚ)} {meta : Option (List (List Char × MetaVal))}
    (h : ∀ ce ∈ chunks.zip embs, ce.2.length = columnDimension) :
    upsertDocumentChunks st fid chunks embs meta =
      .ok ⟨st.dimension,
        (chunks.zip embs).foldl (upsertStep fid (meta.getD [])) st.rows⟩ := by
  rw [upsertDocumentChunks]
  have hf : (chunks.zip embs).find?
      (fun ce => decide (ce.2.length ≠ columnDimension)) = none := by
    rw [List.find?_eq_none]
    intro ce hce
    simp [h ce hce]
  rw [hf]

/-- Inversion: a successful upsert call had only 384-dimension embeddings,
and its result is the delete-then-insert fold over the old table. -/
theorem upsert_ok_inv {st st1 : VState} {fid : List Char} {chunks : List Chunk}
    {embs : List (List ℚ)} {meta : Option (List (List Char × MetaVal))}
    (h : upsertDocumentChunks st fid chunks embs meta = .ok st1) :
    st1 = ⟨st.dimension,
        (chunks.zip embs).foldl (upsertStep fid (meta.getD [])) st.rows⟩ ∧
      ∀ ce ∈ chunks.zip embs, ce.2.length = columnDimension := by
  rw [upsertDocumentChunks] at h
  split at h
  · exact absurd h (by simp)
  · next hf =>
    injection h with h1
    refine ⟨h1.symm, ?_⟩
    intro ce hce
    have := List.find?_eq_none.1 hf ce hce
    simpa using this

/-! ## Theorems about the chunker (claims C4 and C7) -/

/-- C4, as written, is false: `chunk_text` cleans the input and then takes
the `len(text) <= chunk_size` early return, which wraps the (empty) cleaned
text in a one-element chunk list instead of returning an empty list. -/
theorem chunk_empty_input_not_empty_list :
    chunkText 1000 200 100 (strL "") = some [⟨[], 0⟩] ∧
      chunkText 1000 200 100 (strL "   ") = some [⟨[], 0⟩] ∧
      ¬ chunkText 1000 200 100 (strL "") = some [] ∧
      ¬ chunkText 1000 200 100 (strL "   ") = some [] := by
  refine ⟨rfl, rfl, ?_, ?_⟩ <;> decide

/-- C4 (amended): on empty input, and on any input that cleans to the empty
string (in particular whitespace-only input), `chunk_text` returns a single
chunk whose text is empty and whose `chunk_index` is 0 — not an empty
list. -/
theorem chunk_blank_input_single_empty_chunk
    (size overlap fuel : Nat) (t : List Char) (h : cleanText t = []) :
    chunkText size overlap fuel t = some [⟨[], 0⟩] := by
  unfold chunkText
  rw [h]
  simp

/-- Witness for `chunk_blank_input_single_empty_chunk` at the whitespace-only
input of the claim. -/
theorem chunk_blank_input_single_empty_chunk_witness :
    cleanText (strL "   ") = [] ∧
      chunkText 1000 200 100 (strL "   ") = some [⟨[], 0⟩] :=
  ⟨by decide, chunk_blank_input_single_empty_chunk 1000 200 100 _ (by decide)⟩

/-- The text on which the sliding-window loop of `chunk_text` cycles when
`chunk_size = 10` and `chunk_overlap = 8`. -/
def cycleText : List Char := strL "aaaaaaa. aaaaaaaaaaaa"

/-- One iteration of the loop on `cycleText` from window start 0: the
sentence-boundary search finds `". "` at offset 7 (past the half-window mark
5), so the window shrinks to `end = 8`, and the next start is
`8 - overlap = 0` again; the guard `start >= len(text) - overlap`
(`0 >= 13`) does not fire. -/
theorem chunkLoop_cycle_step (fuel idx : Nat) (acc : List Chunk) :
    chunkLoop 10 8 cycleText (fuel + 1) 0 idx acc =
      chunkLoop 10 8 cycleText fuel 0 (idx + 1) (acc ++ [⟨strL "aaaaaaa.", idx⟩]) :=
  rfl

/-- C7 is a code bug: for `chunk_size = 10`, `chunk_overlap = 8` (so
`overlap < chunk_size`, which the spec permits) the loop of `chunk_text`
never terminates on `"aaaaaaa. aaaaaaaaaaaa"` — the window start stays at 0
forever, so for every iteration budget the model still answers `none`.  The
source's own `# Prevent infinite loop` guard fails to prevent this. -/
theorem chunk_loop_diverges :
    ∀ fuel : Nat, chunkText 10 8 fuel cycleText = none := by
  have hclean : cleanText cycleText = cycleText := by decide
  have hloop : ∀ fuel idx acc, chunkLoop 10 8 cycleText fuel 0 idx acc = none := by
    intro fuel
    induction fuel with
    | zero => intro idx acc; rfl
    | succ n ih =>
      intro idx acc
      rw [chunkLoop_cycle_step]
      exact ih _ _
  intro fuel
  unfold chunkText
  rw [hclean]
  have hlen : ¬ cycleText.length ≤ 10 := by decide
  rw [if_neg hlen]
  exact hloop fuel 0 []

/-! ## Theorems about the vector store (claims C2, C8, C10) -/

/-- The filter dropping rows whose id is overwritten is idempotent, and it
annihilates the rows the loop itself emitted. -/
theorem filter_not_mem_idsOf_self {fid : List Char} {base : List (List Char × MetaVal)}
    (l : List (Chunk × List ℚ)) (rows : List VRow) :
    ((rows.filter (fun r => !decide (r.id ∈ idsOf fid l)) ++
        l.foldl (upsertStep fid base) []).filter
      (fun r => !decide (r.id ∈ idsOf fid l))) =
      rows.filter (fun r => !decide (r.id ∈ idsOf fid l)) := by
  rw [List.filter_append, List.filter_filter]
  have h1 : (l.foldl (upsertStep fid base) []).filter
      (fun r => !decide (r.id ∈ idsOf fid l)) = [] := by
    rw [List.filter_eq_nil_iff]
    intro r hr
    simp [id_mem_of_mem_foldl hr]
  rw [h1, List.append_nil]
  apply List.filter_congr
  intro r _
  cases h : decide (r.id ∈ idsOf fid l) <;> simp [h]

/-- C8: upsert is idempotent — after a successful `upsert_document_chunks`,
re-running it with the same `(file_id, chunks, embeddings, metadata)`
succeeds and leaves the table in exactly the same state — and the resulting
table has exactly one row per incoming chunk id. -/
theorem upsert_idempotent :
    ∀ (st st1 : VState) (fid : List Char) (chunks : List Chunk)
      (embs : List (List ℚ)) (meta : Option (List (List Char × MetaVal))),
      upsertDocumentChunks st fid chunks embs meta = .ok st1 →
      upsertDocumentChunks st1 fid chunks embs meta = .ok st1 ∧
      ∀ cid ∈ idsOf fid (chunks.zip embs),
        (st1.rows.countP (fun r => decide (r.id = cid))) = 1 := by
  intro st st1 fid chunks embs meta h
  obtain ⟨hst1, hvalid⟩ := upsert_ok_inv h
  subst hst1
  constructor
  · rw [upsert_ok_of_valid hvalid]
    have hrows : (chunks.zip embs).foldl (upsertStep fid (meta.getD []))
        ((chunks.zip embs).foldl (upsertStep fid (meta.getD [])) st.rows) =
        (chunks.zip embs).foldl (upsertStep fid (meta.getD [])) st.rows := by
      rw [foldl_upsertStep_eq (chunks.zip embs)
          ((chunks.zip embs).foldl (upsertStep fid (meta.getD [])) st.rows),
        foldl_upsertStep_eq (chunks.zip embs) st.rows,
        filter_not_mem_idsOf_self]
    exact congrArg (fun R => (Except.ok (⟨st.dimension, R⟩ : VState) :
      Except StorageErr VState)) hrows
  · intro cid hcid
    show ((chunks.zip embs).foldl (upsertStep fid (meta.getD []))
      st.rows).countP (fun r => decide (r.id = cid)) = 1
    rw [foldl_upsertStep_eq (chunks.zip embs) st.rows, List.countP_append]
    have h0 : (st.rows.filter
        (fun r => !decide (r.id ∈ idsOf fid (chunks.zip embs)))).countP
          (fun r => decide (r.id = cid)) = 0 := by
      rw [List.countP_eq_zero]
      intro r hr
      have hnot : ¬ r.id ∈ idsOf fid (chunks.zip embs) := by
        simpa using (List.mem_filter.1 hr).2
      simp only [decide_eq_true_eq]
      intro heq
      exact hnot (heq ▸ hcid)
    rw [h0, countP_foldl_upsertStep (chunks.zip embs) cid hcid]

set_option maxRecDepth 4096 in
/-- Witness for `upsert_idempotent` at a one-chunk upsert of a
384-dimension embedding. -/
theorem upsert_idempotent_witness :
    upsertDocumentChunks
        ⟨384, [mkRow (strL "f") [] (⟨strL "t", 0⟩, unitVec384)]⟩
        (strL "f") [⟨strL "t", 0⟩] [unitVec384] none =
      .ok ⟨384, [mkRow (strL "f") [] (⟨strL "t", 0⟩, unitVec384)]⟩ ∧
    (((⟨384, [mkRow (strL "f") [] (⟨strL "t", 0⟩, unitVec384)]⟩ :
        VState)).rows.countP
      (fun r => decide (r.id = mkChunkId (strL "f") 0))) = 1 :=
  ⟨(upsert_idempotent ⟨384, []⟩
      ⟨384, [mkRow (strL "f") [] (⟨strL "t", 0⟩, unitVec384)]⟩
      (strL "f") [⟨strL "t", 0⟩] [unitVec384] none rfl).1,
   (upsert_idempotent ⟨384, []⟩
      ⟨384, [mkRow (strL "f") [] (⟨strL "t", 0⟩, unitVec384)]⟩
      (strL "f") [⟨strL "t", 0⟩] [unitVec384] none rfl).2
     (mkChunkId (strL "f") 0) (by simp [idsOf])⟩

/-- `str.split('\n')` on a text containing no newline is the single-element
list holding the text. -/
theorem splitNl_eq_single : ∀ l : List Char, '\n' ∉ l → splitNl l = [l] := by
  intro l
  induction l with
  | nil => intro _; rfl
  | cons c rest ih =>
    intro h
    have hc : ¬ c = '\n' := fun hc => h (hc ▸ List.mem_cons_self c rest)
    have hrest : '\n' ∉ rest := fun hm => h (List.mem_cons_of_mem c hm)
    simp only [splitNl, ih hrest]
    rw [if_neg hc]

/-- A run of `n + 1` letters `a` is untouched by `strip` and matches none of
the default section-header patterns. -/
theorem aRun_not_header (n : Nat) :
    pyStrip (List.replicate (n + 1) 'a') = List.replicate (n + 1) 'a' ∧
      isHeaderLine (List.replicate (n + 1) 'a') = false := by
  have hdrop : (List.replicate (n + 1) 'a').dropWhile pyIsSpace =
      List.replicate (n + 1) 'a' := by
    rw [List.replicate_succ, List.dropWhile_cons, if_neg (by decide)]
  have hstrip : pyStrip (List.replicate (n + 1) 'a') =
      List.replicate (n + 1) 'a' := by
    rw [pyStrip, hdrop, List.reverse_replicate, hdrop, List.reverse_replicate]
  refine ⟨hstrip, ?_⟩
  rw [isHeaderLine, hstrip]
  have h1 : matchesMdHeader (List.replicate (n + 1) 'a') = false := by
    rw [matchesMdHeader, List.replicate_succ, List.takeWhile_cons,
      if_neg (by decide)]
    simp
  have h2 : matchesNumbered (List.replicate (n + 1) 'a') = false := by
    rw [matchesNumbered, List.replicate_succ, List.takeWhile_cons,
      if_neg (by decide)]
    simp
  have h3 : matchesAllCaps (List.replicate (n + 1) 'a') = false := by
    rw [List.replicate_succ]
    have e : matchesAllCaps ('a' :: List.replicate n 'a') =
        (('A' ≤ 'a' && 'a' ≤ 'Z') && List.replicate n 'a' ≠ [] &&
          (List.replicate n 'a').all
            (fun d => ('A' ≤ d && d ≤ 'Z') || pyIsSpace d)) := rfl
    rw [e, show ('A' ≤ 'a' && 'a' ≤ 'Z') = false from by decide,
      Bool.false_and, Bool.false_and]
  rw [h1, h2, h3]
  rfl

/-- `chunk_document_by_sections` on a newline-free run of `n + 1` letters
`a` yields that run as its single section chunk. -/
theorem chunkDocumentBySections_aRun (n : Nat) :
    chunkDocumentBySections (List.replicate (n + 1) 'a') =
      [⟨List.replicate (n + 1) 'a', 0⟩] := by
  have hnl : '\n' ∉ List.replicate (n + 1) 'a' := by
    rw [List.mem_replicate]
    rintro ⟨-, h⟩
    exact absurd h (by decide)
  have hne : List.replicate (n + 1) 'a' ≠ [] := by
    rw [List.replicate_succ]
    exact List.cons_ne_nil _ _
  have hjoin : joinNl [List.replicate (n + 1) 'a'] =
      List.replicate (n + 1) 'a' := by
    rw [joinNl, List.intercalate]
    simp
  have hstep : sectionStep ([], [], 0) (List.replicate (n + 1) 'a') =
      ([], [List.replicate (n + 1) 'a'], 0) := by
    rw [sectionStep]
    simp
  rw [chunkDocumentBySections, splitNl_eq_single _ hnl]
  simp only [List.foldl_cons, List.foldl_nil, hstep]
  simp only [hjoin, (aRun_not_header n).1]
  simp [hne]

/-- C10: on a successful upsert the stored row's `text` is the first 10000
characters of the chunk's text while `chunk_size` records the full original
length; and the section-based chunking mode can indeed produce a chunk
longer than 10000 characters, which is therefore silently truncated in
storage. -/
theorem upsert_truncates_text_to_10000 :
    (∀ (st st1 : VState) (fid : List Char) (chunks : List Chunk)
        (embs : List (List ℚ)) (meta : Option (List (List Char × MetaVal))),
      upsertDocumentChunks st fid chunks embs meta = .ok st1 →
      (idsOf fid (chunks.zip embs)).Nodup →
      ∀ ce ∈ chunks.zip embs,
        ∃ r ∈ st1.rows,
          r.id = mkChunkId fid ce.1.chunk_index ∧
          r.text = ce.1.text.take 10000 ∧
          r.chunk_size = ce.1.text.length) ∧
    ∃ doc : List Char, ∃ c ∈ chunkDocumentBySections doc,
      10000 < c.text.length := by
  constructor
  · intro st st1 fid chunks embs meta h hnodup ce hce
    obtain ⟨hst1, -⟩ := upsert_ok_inv h
    subst hst1
    refine ⟨mkRow fid (meta.getD []) ce, ?_, rfl, rfl, rfl⟩
    exact mkRow_mem_foldl (chunks.zip embs) st.rows hnodup ce hce
  · refine ⟨List.replicate (10000 + 1) 'a', ⟨List.replicate (10000 + 1) 'a', 0⟩,
      ?_, ?_⟩
    · rw [chunkDocumentBySections_aRun 10000]
      exact List.mem_singleton.2 rfl
    · show 10000 < (List.replicate (10000 + 1) 'a').length
      rw [List.length_replicate]
      omega

set_option maxRecDepth 4096 in
/-- Witness for the hypothesis-bearing first part of
`upsert_truncates_text_to_10000`, at a concrete one-chunk upsert. -/
theorem upsert_truncates_text_to_10000_witness :
    ∃ r ∈ ((⟨384, [mkRow (strL "f") [] (⟨strL "ab", 0⟩, unitVec384)]⟩ :
        VState)).rows,
      r.id = mkChunkId (strL "f") 0 ∧
      r.text = (strL "ab").take 10000 ∧ r.chunk_size = (strL "ab").length :=
  upsert_truncates_text_to_10000.1 ⟨384, []⟩
    ⟨384, [mkRow (strL "f") [] (⟨strL "ab", 0⟩, unitVec384)]⟩
    (strL "f") [⟨strL "ab", 0⟩] [unitVec384] none rfl
    (by simp [idsOf]) (⟨strL "ab", 0⟩, unitVec384) (by simp)

set_option maxRecDepth 4096 in
/-- C2, as written, is false: the only dimension check is the one the table
column's fixed `Vector(384)` type enforces — the store's *configured*
dimension is never consulted.  With the store configured for dimension 768
(as `FileService` does when the Google provider is active), upserting a
384-dimension embedding — a mismatch against the configured dimension —
succeeds without any error and the mismatched row is stored. -/
theorem upsert_accepts_dimension_mismatch :
    upsertDocumentChunks ⟨768, []⟩ (strL "f") [⟨strL "hi", 0⟩]
        [unitVec384] none =
      .ok ⟨768, [mkRow (strL "f") [] (⟨strL "hi", 0⟩, unitVec384)]⟩ ∧
    (mkRow (strL "f") [] (⟨strL "hi", 0⟩, unitVec384)).embedding.length = 384 ∧
    (384 : Nat) ≠ 768 := by
  refine ⟨rfl, ?_, by decide⟩
  simp [mkRow, unitVec384]

/-- C2 (amended): upsert validates embedding lengths only against the
table's declared column dimension (384), never against the store's
configured `self.dimension`.  An embedding whose length differs from 384
makes the call fail hard with no row stored (the transaction rolls back);
any batch of 384-length embeddings is accepted regardless of the configured
dimension; embeddings are never truncated or padded — every stored
embedding is byte-identical to an incoming one or to a pre-existing row's;
and `update_dimension` merely adopts the requested dimension after logging
a warning. -/
theorem upsert_stores_embeddings_verbatim :
    (∀ (st : VState) (d : Nat), updateDimension st d = ⟨d, st.rows⟩) ∧
    (∀ (st : VState) (fid : List Char) (chunks : List Chunk)
        (embs : List (List ℚ)) (meta : Option (List (List Char × MetaVal)))
        (ce : Chunk × List ℚ), ce ∈ chunks.zip embs →
      ce.2.length ≠ columnDimension →
      ∃ err, upsertDocumentChunks st fid chunks embs meta = .error err) ∧
    (∀ (st st1 : VState) (fid : List Char) (chunks : List Chunk)
        (embs : List (List ℚ)) (meta : Option (List (List Char × MetaVal))),
      upsertDocumentChunks st fid chunks embs meta = .ok st1 →
      ∀ r ∈ st1.rows,
        r.embedding ∈ st.rows.map VRow.embedding ∨ r.embedding ∈ embs) ∧
    (∀ (st : VState) (fid : List Char) (chunks : List Chunk)
        (embs : List (List ℚ)) (meta : Option (List (List Char × MetaVal))),
      (∀ ce ∈ chunks.zip embs, ce.2.length = columnDimension) →
      ∃ st1, upsertDocumentChunks st fid chunks embs meta = .ok st1) := by
  refine ⟨fun st d => rfl, ?_, ?_, ?_⟩
  · intro st fid chunks embs meta ce hce hlen
    rcases hf : (chunks.zip embs).find?
        (fun p => decide (p.2.length ≠ columnDimension)) with _ | w
    · exact absurd (by simpa using List.find?_eq_none.1 hf ce hce) hlen
    · exact ⟨.dimensionMismatch columnDimension w.2.length,
        by rw [upsertDocumentChunks, hf]⟩
  · intro st st1 fid chunks embs meta h r hr
    obtain ⟨hst1, -⟩ := upsert_ok_inv h
    subst hst1
    show _ ∨ _
    have hsplit : r ∈ st.rows.filter
        (fun s => !decide (s.id ∈ idsOf fid (chunks.zip embs))) ++
          (chunks.zip embs).foldl (upsertStep fid (meta.getD [])) [] := by
      rw [← foldl_upsertStep_eq]
      exact hr
    rcases List.mem_append.1 hsplit with h' | h'
    · exact Or.inl (List.mem_map.2 ⟨r, (List.mem_filter.1 h').1, rfl⟩)
    · obtain ⟨ce, hce, rfl⟩ := mem_foldl_upsertStep_nil (chunks.zip embs) r h'
      exact Or.inr (List.of_mem_zip hce).2
  · intro st fid chunks embs meta h
    exact ⟨_, upsert_ok_of_valid h⟩

set_option maxRecDepth 4096 in
/-- Witness for `upsert_stores_embeddings_verbatim`: `update_dimension`
adopts 768; a length-2 embedding makes the upsert fail; the single row a
successful 384-length upsert stores carries its input embedding verbatim;
and a 384-length batch succeeds even at configured dimension 768. -/
theorem upsert_stores_embeddings_verbatim_witness :
    updateDimension ⟨384, []⟩ 768 = ⟨768, []⟩ ∧
    (∃ err, upsertDocumentChunks ⟨384, []⟩ (strL "f") [⟨strL "t", 0⟩]
      [[(1 : ℚ), 2]] none = .error err) ∧
    ((mkRow (strL "f") [] (⟨strL "hi", 0⟩, unitVec384)).embedding ∈
        (([] : List VRow).map VRow.embedding) ∨
      (mkRow (strL "f") [] (⟨strL "hi", 0⟩, unitVec384)).embedding ∈
        [unitVec384]) ∧
    (∃ st1, upsertDocumentChunks ⟨768, []⟩ (strL "f") [⟨strL "hi", 0⟩]
      [unitVec384] none = .ok st1) :=
  ⟨upsert_stores_embeddings_verbatim.1 ⟨384, []⟩ 768,
   upsert_stores_embeddings_verbatim.2.1 ⟨384, []⟩ (strL "f") [⟨strL "t", 0⟩]
     [[(1 : ℚ), 2]] none (⟨strL "t", 0⟩, [(1 : ℚ), 2]) (by simp) (by decide),
   upsert_stores_embeddings_verbatim.2.2.1 ⟨768, []⟩
     ⟨768, [mkRow (strL "f") [] (⟨strL "hi", 0⟩, unitVec384)]⟩
     (strL "f") [⟨strL "hi", 0⟩] [unitVec384] none rfl _ (by simp),
   upsert_stores_embeddings_verbatim.2.2.2 ⟨768, []⟩ (strL "f")
     [⟨strL "hi", 0⟩] [unitVec384] none
     (by
       intro ce hce
       simp only [List.zip_cons_cons, List.zip_nil_right,
         List.mem_singleton] at hce
       subst hce
       rfl)⟩

/-! ## Theorems about similarity search (claim C5) -/

/-- The query/stored embedding of the tie counterexample really has exact
cosine distance 0 to itself: it is a unit vector, so the distance is
`1 - ⟨e, e⟩ = 1 - 1 = 0`. -/
theorem cosDistUnit_unitVec384_self : cosDistUnit unitVec384 unitVec384 = 0 := by
  have hz : ∀ n : Nat,
      (((List.replicate n (0 : ℚ)).zip (List.replicate n (0 : ℚ))).map
        (fun p => p.1 * p.2)).sum = 0 := by
    intro n
    induction n with
    | zero => rfl
    | succ m ih => simp [List.replicate_succ, ih]
  have hcons : unitVec384.zip unitVec384 =
      ((1 : ℚ), (1 : ℚ)) ::
        ((List.replicate 383 (0 : ℚ)).zip (List.replicate 383 (0 : ℚ))) := rfl
  rw [cosDistUnit, hcons, List.map_cons, List.sum_cons, hz 383]
  norm_num

set_option maxRecDepth 8192 in
/-- C5, as written, is false on its tie-break clause: the SQL query orders
by cosine distance only, so equally-distant rows come back in physical row
order, not by ascending `chunk_index`.  Concretely: upsert chunks 0 and 1 of
file `f` with identical (384-dimension, column-conforming) embeddings, then
re-upsert chunk 0 alone (delete + re-insert moves its row last); searching
with that very embedding returns the two rows with equal score 1 in the
order `chunk_index = 1, 0`. -/
theorem search_ties_not_by_chunk_index :
    upsertDocumentChunks ⟨384, []⟩ (strL "f")
        [⟨strL "A", 0⟩, ⟨strL "B", 1⟩] [unitVec384, unitVec384] none =
      .ok tieState1 ∧
    upsertDocumentChunks tieState1 (strL "f") [⟨strL "A", 0⟩] [unitVec384] none =
      .ok tieState2 ∧
    ((searchSimilarChunks cosDistUnit tieState2 unitVec384 5 none).map
      (fun h => (h.chunk_index, h.score))) = [(1, 1), (0, 1)] := by
  refine ⟨rfl, rfl, ?_⟩
  rw [searchSimilarChunks]
  have hcand : searchCand tieState2 none =
      [mkRow (strL "f") [] (⟨strL "B", 1⟩, unitVec384),
       mkRow (strL "f") [] (⟨strL "A", 0⟩, unitVec384)] := rfl
  have hsorted : List.Pairwise
      (fun a b : VRow =>
        (decide (cosDistUnit a.embedding unitVec384 ≤
          cosDistUnit b.embedding unitVec384)) = true)
      [mkRow (strL "f") [] (⟨strL "B", 1⟩, unitVec384),
       mkRow (strL "f") [] (⟨strL "A", 0⟩, unitVec384)] := by
    simp [List.pairwise_cons, mkRow]
  rw [hcand, List.mergeSort_of_sorted hsorted]
  simp [mkRow, cosDistUnit_unitVec384_self]

/-- C5 (amended): search returns at most `top_k` rows, each scored
`1 - cosine_distance(embedding, query_embedding)` for some stored row,
ordered by descending score; when no row passes the `file_id` filter the
result is the empty list (a normal return, not an error).  Ties are **not**
broken by `chunk_index`; they stay in the database's physical row order. -/
theorem search_ranking_topk_empty :
    ∀ (dist : List ℚ → List ℚ → ℚ) (st : VState) (q : List ℚ) (k : Nat)
      (f : Option (List Char)),
      (searchSimilarChunks dist st q k f).length ≤ k ∧
      List.Pairwise (fun a b => b.score ≤ a.score)
        (searchSimilarChunks dist st q k f) ∧
      (∀ hit ∈ searchSimilarChunks dist st q k f, ∃ r ∈ st.rows,
        hit.score = 1 - dist r.embedding q ∧ hit.id = r.id ∧
          hit.chunk_index = r.chunk_index ∧ hit.text = r.text) ∧
      (∀ fid, f = some fid →
        st.rows.filter (fun r => r.file_id = fid) = [] →
        searchSimilarChunks dist st q k f = []) := by
  intro dist st q k f
  refine ⟨?_, ?_, ?_, ?_⟩
  · rw [searchSimilarChunks, List.length_map, List.length_take]
    exact min_le_left _ _
  · rw [searchSimilarChunks, List.pairwise_map]
    have hs := @List.sorted_mergeSort VRow
      (fun (a b : VRow) => decide (dist a.embedding q ≤ dist b.embedding q))
      (fun a b c hab hbc => by
        simp only [decide_eq_true_eq] at *
        exact le_trans hab hbc)
      (fun a b => by
        simp only [Bool.or_eq_true, decide_eq_true_eq]
        exact le_total _ _)
      (searchCand st f)
    have htake := hs.sublist (List.take_sublist k _)
    refine htake.imp ?_
    intro a b hab
    simp only [decide_eq_true_eq] at hab
    exact sub_le_sub_left hab 1
  · intro hit hhit
    rw [searchSimilarChunks] at hhit
    obtain ⟨r, hr, rfl⟩ := List.mem_map.1 hhit
    have hr1 : r ∈ (searchCand st f).mergeSort _ :=
      List.mem_of_mem_take hr
    have hr2 : r ∈ searchCand st f :=
      (List.mergeSort_perm (searchCand st f) _).mem_iff.1 hr1
    have hr3 : r ∈ st.rows := by
      cases f with
      | none => exact hr2
      | some fid =>
        have : searchCand st (some fid) =
            st.rows.filter (fun s => s.file_id = fid) := rfl
        rw [this] at hr2
        exact (List.mem_filter.1 hr2).1
    exact ⟨r, hr3, rfl, rfl, rfl, rfl⟩
  · intro fid hf hfilter
    subst hf
    have hc : searchCand st (some fid) = [] := by
      have : searchCand st (some fid) =
          st.rows.filter (fun r => r.file_id = fid) := rfl
      rw [this, hfilter]
    rw [searchSimilarChunks, hc, List.mergeSort_nil, List.take_nil,
      List.map_nil]

/-- Witness for `search_ranking_topk_empty` at a concrete store, query and
filter (the filter matches nothing, so the result is empty). -/
theorem search_ranking_topk_empty_witness :
    (searchSimilarChunks cosDistUnit
        ⟨2, [⟨strL "f_0", strL "f", 0, strL "A", 1, [1, 0], []⟩]⟩
        [1, 0] 5 (some (strL "g"))).length ≤ 5 ∧
    searchSimilarChunks cosDistUnit
        ⟨2, [⟨strL "f_0", strL "f", 0, strL "A", 1, [1, 0], []⟩]⟩
        [1, 0] 5 (some (strL "g")) = [] :=
  ⟨(search_ranking_topk_empty cosDistUnit _ [1, 0] 5 (some (strL "g"))).1,
   (search_ranking_topk_empty cosDistUnit
       ⟨2, [⟨strL "f_0", strL "f", 0, strL "A", 1, [1, 0], []⟩]⟩
       [1, 0] 5 (some (strL "g"))).2.2.2 (strL "g") rfl (by decide)⟩

/-! ## Theorems about the embedding cascade (claims C3 and C6) -/

/-- C3, as written, is false on the huggingface hop: `_try_fallback` from
`huggingface` tries `local` first (google only if local fails to
initialise), so with every provider available the failed huggingface call
is retried via `local` — not google — and `info().provider` reports
`"local"`. -/
theorem huggingface_falls_back_to_local :
    (embedText
        ⟨fun _ => true, fun p => decide (p ≠ Provider.huggingface), fun _ _ => []⟩
        ⟨some .huggingface, some (strL "all-MiniLM-L6-v2"), 384⟩
        (strL "query")).2 = .ok (.local, []) ∧
      (getInfo (embedText
        ⟨fun _ => true, fun p => decide (p ≠ Provider.huggingface), fun _ _ => []⟩
        ⟨some .huggingface, some (strL "all-MiniLM-L6-v2"), 384⟩
        (strL "query")).1).provider = some (strL "local") ∧
      Provider.local ≠ Provider.google ∧ strL "local" ≠ strL "google" := by
  refine ⟨rfl, rfl, by decide, by decide⟩

/-- C3 (amended): the failover ring is google → local, local → huggingface,
and huggingface → local (google is only the second choice from huggingface);
when the active provider's call fails and the named next provider
initialises and embeds successfully, the call succeeds via that provider
and `get_info().provider` reflects the change. -/
theorem failover_ring_next_hop :
    ∀ (env : EmbEnv) (st : EmbState) (text : List Char),
      (st.provider = some .google → env.callOk .google = false →
        env.initOk .local = true → env.callOk .local = true →
        (embedText env st text).2 = .ok (.local, env.embedFn .local text) ∧
          (getInfo (embedText env st text).1).provider = some (strL "local")) ∧
      (st.provider = some .local → env.callOk .local = false →
        env.initOk .huggingface = true → env.callOk .huggingface = true →
        (embedText env st text).2 =
            .ok (.huggingface, env.embedFn .huggingface text) ∧
          (getInfo (embedText env st text).1).provider =
            some (strL "huggingface")) ∧
      (st.provider = some .huggingface → env.callOk .huggingface = false →
        env.initOk .local = true → env.callOk .local = true →
        (embedText env st text).2 = .ok (.local, env.embedFn .local text) ∧
          (getInfo (embedText env st text).1).provider = some (strL "local")) := by
  intro env st text
  obtain ⟨p, mn, d⟩ := st
  refine ⟨?_, ?_, ?_⟩ <;>
    · intro h1 h2 h3 h4
      simp only at h1
      subst h1
      constructor <;>
        simp [embedText, tryFallback, initLocal, initHuggingface, initGoogle,
          getInfo, Provider.name, h2, h3, h4]

/-- Witness for `failover_ring_next_hop`: with only the local provider able
to take calls, a google-active service fails over to local and reports it. -/
theorem failover_ring_next_hop_witness :
    (embedText ⟨fun _ => true, fun p => decide (p = Provider.local),
        fun _ _ => [1]⟩
      ⟨some .google, some (strL "text-embedding-004"), 768⟩ (strL "x")).2 =
        .ok (.local, [1]) ∧
    (getInfo (embedText ⟨fun _ => true, fun p => decide (p = Provider.local),
        fun _ _ => [1]⟩
      ⟨some .google, some (strL "text-embedding-004"), 768⟩ (strL "x")).1).provider =
        some (strL "local") :=
  (failover_ring_next_hop
      ⟨fun _ => true, fun p => decide (p = Provider.local), fun _ _ => [1]⟩
      ⟨some .google, some (strL "text-embedding-004"), 768⟩ (strL "x")).1
    rfl rfl rfl rfl

/-- C6: on a call failure the cascade retries exactly once, against the
provider `_try_fallback` switched to, and re-raises that provider's failure
without trying anyone else; when no fallback provider initialises the call
surfaces the `RuntimeError("All embedding providers failed")`
(`EmbeddingUnavailable`); and a successful `embed_texts` returns one vector
per input text, all produced by the single provider recorded in the result
— never a subset. -/
theorem embed_failover_single_retry_all_or_nothing :
    ∀ (env : EmbEnv) (st : EmbState) (texts : List (List Char)),
      (∀ p vecs, (embedTexts env st texts).2 = .ok (p, vecs) →
        vecs = texts.map (env.embedFn p) ∧ vecs.length = texts.length) ∧
      (∀ p p2 st2, st.provider = some p → env.callOk p = false →
        tryFallback env st = (some p2, st2) → env.callOk p2 = false →
        (embedTexts env st texts).2 = .error (.providerError p2)) ∧
      (∀ p st2, st.provider = some p → env.callOk p = false →
        tryFallback env st = (none, st2) →
        (embedTexts env st texts).2 = .error .allFailed) := by
  intro env st texts
  refine ⟨?_, ?_, ?_⟩
  · intro p vecs h
    obtain ⟨p0, mn, d⟩ := st
    cases hp : p0 with
    | none => subst hp; simp [embedTexts] at h
    | some q =>
      subst hp
      by_cases hc : env.callOk q = true
      · simp only [embedTexts, hc, if_true, Except.ok.injEq, Prod.mk.injEq] at h
        obtain ⟨rfl, rfl⟩ := h
        exact ⟨rfl, by simp⟩
      · rw [Bool.not_eq_true] at hc
        rcases htf : tryFallback env ⟨some q, mn, d⟩ with ⟨op2, st2⟩
        cases op2 with
        | none => simp [embedTexts, hc, htf] at h
        | some p2 =>
          by_cases hc2 : env.callOk p2 = true
          · simp only [embedTexts, hc, htf, hc2, Bool.false_eq_true,
              if_false, if_true, Except.ok.injEq, Prod.mk.injEq] at h
            obtain ⟨rfl, rfl⟩ := h
            exact ⟨rfl, by simp⟩
          · rw [Bool.not_eq_true] at hc2
            simp [embedTexts, hc, htf, hc2] at h
  · intro p p2 st2 hp hc htf hc2
    obtain ⟨p0, mn, d⟩ := st
    simp only at hp
    subst hp
    simp [embedTexts, hc, htf, hc2]
  · intro p st2 hp hc htf
    obtain ⟨p0, mn, d⟩ := st
    simp only at hp
    subst hp
    simp [embedTexts, hc, htf]

/-- Witness for `embed_failover_single_retry_all_or_nothing`, exercising all
three parts at concrete environments: a succeeding batch returns one vector
per text from one provider; a failing retried provider's error is re-raised;
and with no fallback available the all-providers-failed error surfaces. -/
theorem embed_failover_single_retry_all_or_nothing_witness :
    ([[(1 : ℚ)], [(1 : ℚ)]] = [strL "a", strL "b"].map
        ((⟨fun _ => true, fun _ => true, fun _ _ => [(1 : ℚ)]⟩ :
          EmbEnv).embedFn .local) ∧
      ([[(1 : ℚ)], [(1 : ℚ)]] : List (List ℚ)).length =
        [strL "a", strL "b"].length) ∧
    (embedTexts ⟨fun p => decide (p = Provider.local), fun _ => false,
        fun _ _ => []⟩
      ⟨some .google, none, 1536⟩ [strL "a"]).2 =
        .error (.providerError .local) ∧
    (embedTexts ⟨fun _ => false, fun _ => false, fun _ _ => []⟩
      ⟨some .google, none, 1536⟩ [strL "a"]).2 = .error .allFailed :=
  ⟨(embed_failover_single_retry_all_or_nothing
      ⟨fun _ => true, fun _ => true, fun _ _ => [(1 : ℚ)]⟩
      ⟨some .local, none, 384⟩ [strL "a", strL "b"]).1 .local
      [[(1 : ℚ)], [(1 : ℚ)]] rfl,
   (embed_failover_single_retry_all_or_nothing
      ⟨fun p => decide (p = Provider.local), fun _ => false, fun _ _ => []⟩
      ⟨some .google, none, 1536⟩ [strL "a"]).2.1 .google .local
      ⟨some .local, some (strL "all-MiniLM-L6-v2"), 384⟩ rfl rfl rfl rfl,
   (embed_failover_single_retry_all_or_nothing
      ⟨fun _ => false, fun _ => false, fun _ _ => []⟩
      ⟨some .google, none, 1536⟩ [strL "a"]).2.2 .google
      ⟨some .google, none, 1536⟩ rfl rfl rfl⟩

/-! ## Theorems about ingestion (claim C1) -/

set_option maxRecDepth 8192 in
/-- C1, as written, is false for failing extraction: `_extract_text` catches
the failure and returns a non-empty placeholder.  Concretely, the byte
`0xFF` is not valid UTF-8, so extracting it as `txt` fails — yet
`upload_file` proceeds to chunk, embed and store the placeholder string,
writing one vector row and creating the Document record with
`indexed_in_vector_db = True`. -/
theorem upload_proceeds_on_extraction_failure :
    utf8Decode [255] = none ∧
    (uploadFile ⟨fun _ => none, false, fun _ => none, false, fun _ => none⟩
          ⟨fun _ => true, fun _ => true, fun _ _ => unitVec384⟩
          ⟨⟨some .local, some (strL "all-MiniLM-L6-v2"), 384⟩, ⟨384, []⟩, []⟩
          [255] (strL "doc.txt") (strL "txt") (strL "u1") (strL "")
          (strL "fid1") 10).map
        (fun p => (p.1.vec.rows.length, p.1.files.length, p.2.isOk)) =
      some (1, 1, true) := by
  exact ⟨rfl, rfl⟩

/-- C1 (amended): when extraction yields *empty* text, `upload_file` raises
HTTP 400 ("Could not extract text from file") before any chunking, embedding
or vector storage — the state is returned untouched, so no vector row is
written and no Document record is created.  (When extraction *fails*,
however, a non-empty placeholder is returned and ingestion proceeds; see the
counterexample.) -/
theorem upload_aborts_only_on_empty_text :
    ∀ (ext : ExtEnv) (env : EmbEnv) (st : AppState) (content : List Nat)
      (fileName fileType userId description fileId : List Char) (fuel : Nat),
      extractText ext content fileType = [] →
      uploadFile ext env st content fileName fileType userId description
          fileId fuel = some (st, .error .httpBadRequest) := by
  intro ext env st content fileName fileType userId description fileId fuel h
  simp [uploadFile, h]

/-- Witness for `upload_aborts_only_on_empty_text`: an empty `txt` upload
decodes to the empty string and is rejected with the state unchanged. -/
theorem upload_aborts_only_on_empty_text_witness :
    uploadFile ⟨fun _ => none, false, fun _ => none, false, fun _ => none⟩
        ⟨fun _ => true, fun _ => true, fun _ _ => [1]⟩
        ⟨⟨some .local, some (strL "all-MiniLM-L6-v2"), 384⟩, ⟨384, []⟩, []⟩
        [] (strL "doc.txt") (strL "txt") (strL "u1") (strL "")
        (strL "fid1") 10 =
      some (⟨⟨some .local, some (strL "all-MiniLM-L6-v2"), 384⟩, ⟨384, []⟩, []⟩,
        .error .httpBadRequest) :=
  upload_aborts_only_on_empty_text
    ⟨fun _ => none, false, fun _ => none, false, fun _ => none⟩
    ⟨fun _ => true, fun _ => true, fun _ _ => [1]⟩
    ⟨⟨some .local, some (strL "all-MiniLM-L6-v2"), 384⟩, ⟨384, []⟩, []⟩
    [] (strL "doc.txt") (strL "txt") (strL "u1") (strL "") (strL "fid1") 10 rfl

/-! ## Theorems about retrieval context assembly (claim C9) -/

/-- Search against an empty table returns the empty list for any query,
limit and filter. -/
theorem searchSimilarChunks_nil (dist : List ℚ → List ℚ → ℚ) (dim : Nat)
    (q : List ℚ) (k : Nat) (f : Option (List Char)) :
    searchSimilarChunks dist ⟨dim, []⟩ q k f = [] := by
  have hc : searchCand ⟨dim, []⟩ f = [] := by
    cases f with
    | none => rfl
    | some fid => rfl
  rw [searchSimilarChunks, hc, List.mergeSort_nil, List.take_nil, List.map_nil]

/-- C9: when the vector store holds no passages (so every retrieval query
matches zero chunks) and the out-of-scope auxiliary sources contribute
nothing, `_gather_context` returns the empty context string and the empty
source list — as a normal return value, since the method catches every
exception and cannot raise. -/
theorem gather_context_empty_on_zero_matches :
    ∀ (cenv : CtxEnv) (dist : List ℚ → List ℚ → ℚ) (rag : Bool)
      (env : EmbEnv) (embSt : EmbState) (vst : VState) (message : List Char),
      vst.rows = [] → cenv.caseStats = [] → cenv.kenyaStats = [] →
      cenv.scraped = [] →
      (gatherContext cenv dist rag env embSt vst message).1 = ⟨[], []⟩ := by
  intro cenv dist rag env embSt vst message h1 h2 h3 h4
  obtain ⟨dim, rows⟩ := vst
  simp only at h1
  subst h1
  obtain ⟨cs, ks, sc⟩ := cenv
  simp only at h2 h3 h4
  subst h2; subst h3; subst h4
  cases rag with
  | false => simp [gatherContext]
  | true =>
    rcases hemb : embedText env embSt message with ⟨emb1, res⟩
    cases res with
    | error e => simp [gatherContext, hemb]
    | ok pv => simp [gatherContext, hemb, searchSimilarChunks_nil]

/-- Witness for `gather_context_empty_on_zero_matches`: the spec's scenario
— an unrelated query against an empty store — yields empty context and
sources. -/
theorem gather_context_empty_on_zero_matches_witness :
    (gatherContext ⟨[], [], []⟩ cosDistUnit true
        ⟨fun _ => true, fun _ => true, fun _ _ => [1]⟩
        ⟨some .local, some (strL "all-MiniLM-L6-v2"), 384⟩ ⟨384, []⟩
        (strL "unrelated query")).1 = ⟨[], []⟩ :=
  gather_context_empty_on_zero_matches ⟨[], [], []⟩ cosDistUnit true
    ⟨fun _ => true, fun _ => true, fun _ _ => [1]⟩
    ⟨some .local, some (strL "all-MiniLM-L6-v2"), 384⟩ ⟨384, []⟩
    (strL "unrelated query") rfl rfl rfl rfl

end STC
